import Mathlib

/-!
Verification of the ETL normalization/validation/consolidation pipeline
(`src/etl/processor.py`, `src/etl/consolidator.py`, `src/domain/entities.py`).

Shallow embedding conventions:
- A pandas DataFrame is a `Table`: a list of rows plus one boolean per
  optional column recording whether that column is present in the frame.
  A cell holding pandas `NaN` is `Option.none`.
- `VALOR` cells are modelled after the `pd.to_numeric(..., errors="coerce")`
  coercion as `Option ℚ` (`none` = NaN / unparseable).
- File and CSV I/O (readers, exporter) are elided; the pipeline model
  operates on in-memory tables, exactly as the Python stages do once the
  frames are loaded.
-/

namespace ANS

/-- Quality flags, from `StatusQualidade` in `src/domain/entities.py`. -/
inductive StatusQualidade where
  | OK
  | CNPJ_INVALIDO
  | VALOR_SUSPEITO
  | DUPLICADO
  | SEM_CADASTRO
deriving DecidableEq, Repr

/-- Numeric value of a digit character, `int(c)` on a digit. -/
def charVal (c : Char) : Nat := c.toNat - 48

/-- The digit characters of a string, in order:
Python `"".join(c for c in str(cnpj) if c.isdigit())`. -/
def digitsOf (s : String) : List Char := s.data.filter Char.isDigit

/-- Python `str.zfill`: left-pad with the zero character up to length `n`
(identity when the string is already at least that long). -/
def zfill (l : List Char) (n : Nat) : List Char :=
  List.replicate (n - l.length) '0' ++ l

/-- Python `len(set(s)) == 1` for a character list: nonempty and all
characters equal to the first. -/
def isRepeatedSeq : List Char → Bool
  | [] => false
  | c :: rest => rest.all (fun d => d == c)

/-- `calc_digito` from `DataProcessor.validate_cnpj`: weighted sum of the
digits, remainder mod 11, check digit 0 when the remainder is below 2 and
`11 - remainder` otherwise.  `zip` truncates at the shorter list, as in
Python. -/
def calc_digito (base : List Nat) (pesos : List Nat) : Nat :=
  let soma := ((base.zip pesos).map (fun p => p.1 * p.2)).sum
  let resto := soma % 11
  if resto < 2 then 0 else 11 - resto

/-- First-pass weights over digits 0-11. -/
def pesos_1 : List Nat := [5, 4, 3, 2, 9, 8, 7, 6, 5, 4, 3, 2]

/-- Second-pass weights over digits 0-12. -/
def pesos_2 : List Nat := [6, 5, 4, 3, 2, 9, 8, 7, 6, 5, 4, 3, 2]

/-- `DataProcessor.validate_cnpj` on a string argument: strip non-digits,
left-pad with zeros when the length differs from 14, reject any length
still different from 14, reject a repeated single digit, then compare the
digits at positions 12 and 13 with the two computed check digits.  Returns
the validity flag together with the cleaned identifier. -/
def validate_cnpj (cnpj : String) : Bool × String :=
  let limpo0 := digitsOf cnpj
  let limpo := if limpo0.length ≠ 14 then zfill limpo0 14 else limpo0
  if limpo.length ≠ 14 then (false, String.mk limpo)
  else if isRepeatedSeq limpo then (false, String.mk limpo)
  else
    let ds := limpo.map charVal
    let digito_1 := calc_digito (ds.take 12) pesos_1
    let digito_2 := calc_digito (ds.take 13) pesos_2
    (decide (ds.getD 12 0 = digito_1 ∧ ds.getD 13 0 = digito_2), String.mk limpo)

/-- The validity condition exactly as the specification phrases it: the
digits remaining after stripping non-digits and left-padding with zeros
form a 14-digit string, that string is not a single repeated digit, and
its digits at positions 12 and 13 equal the two weighted-sum-mod-11 check
digits. -/
def cnpjClaimValid (s : String) : Prop :=
  let p := zfill (digitsOf s) 14
  p.length = 14 ∧
  (∀ c : Char, p ≠ List.replicate 14 c) ∧
  (p.map charVal).getD 12 0 = calc_digito ((p.map charVal).take 12) pesos_1 ∧
  (p.map charVal).getD 13 0 = calc_digito ((p.map charVal).take 13) pesos_2

lemma zfill_of_length_eq {l : List Char} (h : l.length = 14) : zfill l 14 = l := by
  simp [zfill, h]

lemma isRepeatedSeq_iff (l : List Char) (hne : l ≠ []) :
    isRepeatedSeq l = true ↔ ∃ c : Char, l = List.replicate l.length c := by
  cases l with
  | nil => exact absurd rfl hne
  | cons c rest =>
      simp only [isRepeatedSeq, List.all_eq_true, beq_iff_eq]
      constructor
      · intro h
        refine ⟨c, ?_⟩
        simp only [List.length_cons, List.replicate_succ, List.cons.injEq, true_and]
        exact List.eq_replicate_of_mem h
      · rintro ⟨d, hd⟩
        rw [List.length_cons, List.replicate_succ] at hd
        injection hd with h1 h2
        subst h1
        intro x hx
        rw [h2] at hx
        exact List.eq_of_mem_replicate hx

/-- The cleaned digit list computed inside `validate_cnpj` is always the
claim-side padded list. -/
lemma validate_cnpj_limpo (s : String) :
    (if (digitsOf s).length ≠ 14 then zfill (digitsOf s) 14 else digitsOf s) =
      zfill (digitsOf s) 14 := by
  by_cases h : (digitsOf s).length = 14
  · simp [h, zfill_of_length_eq h]
  · simp [h]

/-- C1. `IdentifierValidator.validate` (`DataProcessor.validate_cnpj`)
returns `is_valid = true` exactly when the stripped-and-padded digits form
a 14-digit string that is not a single repeated digit and whose digits at
positions 12 and 13 equal the two weighted-sum-mod-11 check digits; in
particular the identifier 11444777000161 is valid and every 14-digit
string of one repeated digit is invalid. -/
theorem C1_validate_cnpj_correct :
    (∀ s : String, (validate_cnpj s).1 = true ↔ cnpjClaimValid s) ∧
    (validate_cnpj "11444777000161").1 = true ∧
    (∀ c : Char, c.isDigit = true →
      (validate_cnpj (String.mk (List.replicate 14 c))).1 = false) := by
  have hiff : ∀ s : String, (validate_cnpj s).1 = true ↔ cnpjClaimValid s := by
    intro s
    simp only [validate_cnpj, cnpjClaimValid]
    rw [validate_cnpj_limpo]
    set p := zfill (digitsOf s) 14 with hp
    by_cases hlen : p.length = 14
    · rw [if_neg (not_not_intro hlen)]
      have hne : p ≠ [] := by
        intro h; rw [h] at hlen; simp at hlen
      by_cases hrep : isRepeatedSeq p = true
      · rw [if_pos hrep]
        constructor
        · intro h; simp at h
        · rintro ⟨-, hnr, -⟩
          obtain ⟨c, hc⟩ := (isRepeatedSeq_iff p hne).mp hrep
          rw [hlen] at hc
          exact absurd hc (hnr c)
      · rw [if_neg hrep]
        show decide _ = true ↔ _
        rw [decide_eq_true_eq]
        constructor
        · rintro ⟨h1, h2⟩
          refine ⟨hlen, ?_, h1, h2⟩
          intro c hc
          exact hrep ((isRepeatedSeq_iff p hne).mpr ⟨c, by rw [hlen]; exact hc⟩)
        · rintro ⟨-, -, h1, h2⟩
          exact ⟨h1, h2⟩
    · rw [if_pos hlen]
      constructor
      · intro h; simp at h
      · rintro ⟨h, -⟩
        exact absurd h hlen
  refine ⟨hiff, by decide, ?_⟩
  intro c hc
  rcases hb : (validate_cnpj (String.mk (List.replicate 14 c))).1 with _ | _
  · rfl
  · exfalso
    have hclaim := (hiff _).mp hb
    simp only [cnpjClaimValid] at hclaim
    have hdig : digitsOf (String.mk (List.replicate 14 c)) = List.replicate 14 c := by
      simp only [digitsOf]
      rw [List.filter_eq_self]
      intro a ha
      rw [List.eq_of_mem_replicate ha]
      exact hc
    have hpad : zfill (digitsOf (String.mk (List.replicate 14 c))) 14 = List.replicate 14 c := by
      rw [hdig]
      exact zfill_of_length_eq (by simp)
    obtain ⟨-, hnr, -⟩ := hclaim
    exact hnr c hpad

/-- Witness for C1: the all-ones identifier is a digit string rejected by
`validate_cnpj`. -/
theorem C1_validate_cnpj_correct_witness :
    Char.isDigit '1' = true ∧
      (validate_cnpj (String.mk (List.replicate 14 '1'))).1 = false :=
  ⟨by decide, C1_validate_cnpj_correct.2.2 '1' (by decide)⟩

/-! ## Data model: normalized expense tables and the registry -/

/-- One row of a normalized expense frame.  Cell values are `Option`
(`none` = pandas NaN); `VALOR` is modelled after the
`pd.to_numeric(..., errors="coerce")` coercion as an optional rational. -/
structure Row where
  cnpj : Option String := none
  razao_social : Option String := none
  valor : Option ℚ := none
  ano : Int := 0
  trimestre : Int := 0
  status : StatusQualidade := StatusQualidade.OK
  registro_ans : Option String := none
  modalidade : Option String := none
  uf : Option String := none
  razao_social_cadastro : Option String := none
deriving DecidableEq, Repr

/-- A DataFrame of expense rows.  The boolean fields record which optional
columns are present in the frame (a pandas frame either has a column for
all rows or for none); the `STATUS_QUALIDADE` column is always present,
as `normalize_columns` appends it unconditionally. -/
structure Table where
  rows : List Row
  hasCNPJ : Bool := true
  hasRazao : Bool := true
  hasValor : Bool := true
  hasAno : Bool := true
  hasTri : Bool := true
  hasUF : Bool := false
  hasRazaoCad : Bool := false
  hasRegistro : Bool := false
  hasModalidade : Bool := false
deriving DecidableEq, Repr

/-- One row of the operator registry after `carregar_operadoras` (CNPJ
cleaned to a 14-digit string; the remaining cells may be missing). -/
structure RegRow where
  cnpj : String
  razao_social_cadastro : Option String := none
  registro_ans : Option String := none
  modalidade : Option String := none
  uf : Option String := none
deriving DecidableEq, Repr

/-- The registry frame.  The `CNPJ` column is taken as present (the join
in `enriquecer_com_cadastro` merges on it); the other columns are mapped
from the source CSV only when a matching header is found, which the
booleans record. -/
structure RegTable where
  rows : List RegRow
  hasRegistro : Bool := true
  hasModalidade : Bool := true
  hasUF : Bool := true
deriving DecidableEq, Repr

/-! ## RecordValidator: `DataProcessor.validate_dataframe` -/

/-- `validate_row_cnpj` inside `validate_dataframe`: a missing `CNPJ`
cell hits the `pd.isna` branch of `validate_cnpj` and yields
`(False, "")`. -/
def validate_row_cnpj (r : Row) : Bool × String :=
  match r.cnpj with
  | none => (false, "")
  | some s => validate_cnpj s

/-- The CNPJ pass of `validate_dataframe`: the `CNPJ` cell is replaced by
the cleaned value for every row, and rows failing validation get
`CNPJ_INVALIDO` (rows passing keep their current flag). -/
def validateRowCNPJ (r : Row) : Row :=
  let vc := validate_row_cnpj r
  { r with
    cnpj := some vc.2,
    status := if vc.1 then r.status else StatusQualidade.CNPJ_INVALIDO }

/-- The suspicious-amount test of `validate_dataframe`: missing after
numeric coercion, negative, or above 1e12. -/
def suspicious (v : Option ℚ) : Bool :=
  match v with
  | none => true
  | some x => decide (x < 0) || decide ((1000000000000 : ℚ) < x)

/-- The VALOR pass of `validate_dataframe`: suspicious rows whose flag is
still `OK` get `VALOR_SUSPEITO`; a flag already set (`CNPJ_INVALIDO`) is
not overwritten. -/
def validateRowValor (r : Row) : Row :=
  if suspicious r.valor = true ∧ r.status = StatusQualidade.OK then
    { r with status := StatusQualidade.VALOR_SUSPEITO }
  else r

/-- `DataProcessor.validate_dataframe`: the CNPJ pass runs first (when the
column is present), then the VALOR pass (when that column is present).
The `RAZAO_SOCIAL` pass only counts empty names and changes no row. -/
def validate_dataframe (t : Table) : Table :=
  let rows1 := if t.hasCNPJ then t.rows.map validateRowCNPJ else t.rows
  let rows2 := if t.hasValor then rows1.map validateRowValor else rows1
  { t with rows := rows2 }

/-! ## Enricher: `DataConsolidator.enriquecer_com_cadastro` -/

/-- `drop_duplicates(subset=["CNPJ"], keep="first")` on the registry:
keep the first occurrence of each CNPJ, preserving order. -/
def keepFirstReg (seen : List String) : List RegRow → List RegRow
  | [] => []
  | g :: rest =>
      if seen.contains g.cnpj then keepFirstReg seen rest
      else g :: keepFirstReg (g.cnpj :: seen) rest

/-- One row of the left join: with the registry deduplicated by CNPJ, each
expense row matches at most one registry row.  The merged columns
(`REGISTRO_ANS`, `MODALIDADE`, `UF`) are attached where the registry has
them, left missing otherwise; an unmatched row gets `SEM_CADASTRO` only
when its current flag is `OK`.  A merge key that is NaN matches nothing,
as in pandas. -/
def enrichRow (reg : RegTable) (uniq : List RegRow) (r : Row) : Row :=
  match r.cnpj.bind (fun c => uniq.find? (fun g => g.cnpj == c)) with
  | some g =>
      { r with
        registro_ans := if reg.hasRegistro then g.registro_ans else none,
        modalidade := if reg.hasModalidade then g.modalidade else none,
        uf := if reg.hasUF then g.uf else none }
  | none =>
      { r with
        registro_ans := none,
        modalidade := none,
        uf := none,
        status := if r.status = StatusQualidade.OK
                  then StatusQualidade.SEM_CADASTRO else r.status }

/-- `DataConsolidator.enriquecer_com_cadastro`: skipped entirely when no
registry was loaded; otherwise a left join on CNPJ against the
first-occurrence-deduplicated registry.  The expense frame coming out of
the pipeline has none of the merged columns beforehand, so no suffixing
occurs. -/
def enriquecer_com_cadastro (ops : Option RegTable) (df : Table) : Table :=
  match ops with
  | none => df
  | some reg =>
      let uniq := keepFirstReg [] reg.rows
      { df with
        rows := df.rows.map (enrichRow reg uniq),
        hasRegistro := reg.hasRegistro,
        hasModalidade := reg.hasModalidade,
        hasUF := reg.hasUF }

/-- C2. Quality-flag precedence: in `validate_dataframe` (both columns
present) a row that is still `OK`, has an invalid identifier and a
suspicious amount ends the validation stage flagged `CNPJ_INVALIDO`,
never `VALOR_SUSPEITO`; and `enriquecer_com_cadastro` sets
`SEM_CADASTRO` on an unmatched row exactly when that row's current flag
is `OK`, keeping any non-OK flag. -/
theorem C2_flag_precedence :
    (∀ t : Table, t.hasCNPJ = true → t.hasValor = true →
      (validate_dataframe t).rows =
        t.rows.map (fun r => validateRowValor (validateRowCNPJ r))) ∧
    (∀ r : Row, r.status = StatusQualidade.OK →
      (validate_row_cnpj r).1 = false → suspicious r.valor = true →
      (validateRowValor (validateRowCNPJ r)).status = StatusQualidade.CNPJ_INVALIDO) ∧
    (∀ (reg : RegTable) (uniq : List RegRow) (r : Row),
      r.cnpj.bind (fun c => uniq.find? (fun g => g.cnpj == c)) = none →
      (enrichRow reg uniq r).status =
        (if r.status = StatusQualidade.OK
         then StatusQualidade.SEM_CADASTRO else r.status)) := by
  refine ⟨?_, ?_, ?_⟩
  · intro t h1 h2
    simp [validate_dataframe, h1, h2]
  · intro r hok hinv hsusp
    have h1 : validateRowCNPJ r =
        { r with cnpj := some (validate_row_cnpj r).2,
                 status := StatusQualidade.CNPJ_INVALIDO } := by
      simp [validateRowCNPJ, hinv]
    rw [h1]
    simp only [validateRowValor]
    rw [if_neg]
    rintro ⟨-, hc⟩
    simp at hc
  · intro reg uniq r hnone
    simp [enrichRow, hnone]

/-- Witness for C2: a concrete normalized row with an invalid identifier
and a negative amount ends validation as `CNPJ_INVALIDO`, and an
unmatched row already flagged keeps its flag under enrichment. -/
theorem C2_flag_precedence_witness :
    (validateRowValor (validateRowCNPJ
        { cnpj := some "12345678901234", valor := some (-5) })).status =
      StatusQualidade.CNPJ_INVALIDO ∧
    (enrichRow { rows := [] } []
        { cnpj := some "12345678901234",
          status := StatusQualidade.CNPJ_INVALIDO }).status =
      StatusQualidade.CNPJ_INVALIDO := by
  constructor
  · exact C2_flag_precedence.2.1 _ (by rfl) (by decide) (by decide)
  · exact C2_flag_precedence.2.2 { rows := [] } [] _ (by rfl)

/-! ## Consolidator: `DataConsolidator.consolidar_trimestres` -/

/-- The duplicate key `(CNPJ, ANO, TRIMESTRE)` used by
`duplicated`/`drop_duplicates`.  A NaN identifier compares equal to
another NaN identifier, as pandas duplicate detection treats NaNs as
equal. -/
def rowKey (r : Row) : Option String × Int × Int := (r.cnpj, r.ano, r.trimestre)

/-- A source frame as it appears inside the concatenated frame: the
per-file year and quarter are injected when those columns are absent and
a column missing from this source is NaN for its rows (pandas `concat`
aligns columns across frames, filling NaN). -/
def materialize (t : Table) (ano tri : Int) : List Row :=
  t.rows.map (fun r =>
    { cnpj := if t.hasCNPJ then r.cnpj else none,
      razao_social := if t.hasRazao then r.razao_social else none,
      valor := if t.hasValor then r.valor else none,
      ano := if t.hasAno then r.ano else ano,
      trimestre := if t.hasTri then r.trimestre else tri,
      status := r.status,
      registro_ans := if t.hasRegistro then r.registro_ans else none,
      modalidade := if t.hasModalidade then r.modalidade else none,
      uf := if t.hasUF then r.uf else none,
      razao_social_cadastro :=
        if t.hasRazaoCad then r.razao_social_cadastro else none })

/-- `duplicated(subset=["CNPJ","ANO","TRIMESTRE"], keep="last")`: position
i is marked when a later position carries the same key. -/
def dupMask : List Row → List Bool
  | [] => []
  | r :: rest =>
      rest.any (fun s => decide (rowKey s = rowKey r)) :: dupMask rest

/-- The flag assignment
`df_all.loc[duplicates_mask, "STATUS_QUALIDADE"] = "DUPLICADO"`: every
masked row receives `DUPLICADO`, with no regard to its current flag. -/
def markDup : List Row → List Row
  | [] => []
  | r :: rest =>
      (if rest.any (fun s => decide (rowKey s = rowKey r)) then
        { r with status := StatusQualidade.DUPLICADO }
      else r) :: markDup rest

/-- `drop_duplicates(subset=["CNPJ","ANO","TRIMESTRE"], keep="last")`:
a row survives exactly when no later row carries the same key. -/
def keepLast : List Row → List Row
  | [] => []
  | r :: rest =>
      if rest.any (fun s => decide (rowKey s = rowKey r)) then keepLast rest
      else r :: keepLast rest

/-- The duplicate-handling block of `consolidar_trimestres`: when the
mask hits at least one row, mark then drop; otherwise the frame passes
through untouched. -/
def consolidarRows (l : List Row) : List Row :=
  if 0 < (dupMask l).count true then keepLast (markDup l) else l

/-- The concatenated frame: every source materialized with its per-file
year and quarter, in input order, row order preserved. -/
def concatAll (dfs : List Table) (anos tris : List Int) : List Row :=
  ((dfs.zip (anos.zip tris)).map (fun p => materialize p.1 p.2.1 p.2.2)).flatten

/-- The column set of the consolidated frame: the union of the source
columns, with `ANO`/`TRIMESTRE` always present after injection. -/
def consolidatedTable (dfs : List Table) (anos tris : List Int) : Table :=
  { rows := consolidarRows (concatAll dfs anos tris),
    hasCNPJ := true,
    hasRazao := dfs.any (fun t => t.hasRazao),
    hasValor := dfs.any (fun t => t.hasValor),
    hasAno := true,
    hasTri := true,
    hasUF := dfs.any (fun t => t.hasUF),
    hasRazaoCad := dfs.any (fun t => t.hasRazaoCad),
    hasRegistro := dfs.any (fun t => t.hasRegistro),
    hasModalidade := dfs.any (fun t => t.hasModalidade) }

/-- `DataConsolidator.consolidar_trimestres`.  Mismatched list lengths
raise `ValueError` (`none` here); a concatenated frame without a `CNPJ`
column (no source has one, or no source at all) makes `duplicated` raise
`KeyError` (`none` here as well). -/
def consolidar_trimestres (dfs : List Table) (anos tris : List Int) :
    Option Table :=
  if dfs.length ≠ anos.length ∨ dfs.length ≠ tris.length then none
  else if dfs.any (fun t => t.hasCNPJ) = false then none
  else some (consolidatedTable dfs anos tris)

lemma rowKey_markDup_pointwise (r : Row) :
    rowKey { r with status := StatusQualidade.DUPLICADO } = rowKey r := rfl

lemma any_key_markDup (l : List Row) (k : Option String × Int × Int) :
    (markDup l).any (fun s => decide (rowKey s = k)) =
      l.any (fun s => decide (rowKey s = k)) := by
  induction l with
  | nil => rfl
  | cons r rest ih =>
      by_cases h : rest.any (fun s => decide (rowKey s = rowKey r)) = true
      · simp [markDup, h, ih, rowKey_markDup_pointwise]
      · simp [markDup, h, ih]

lemma keepLast_markDup (l : List Row) : keepLast (markDup l) = keepLast l := by
  induction l with
  | nil => rfl
  | cons r rest ih =>
      rw [markDup]
      by_cases h : rest.any (fun s => decide (rowKey s = rowKey r)) = true
      · rw [if_pos h]
        show (if (markDup rest).any (fun s => decide (rowKey s = rowKey r)) = true
              then keepLast (markDup rest)
              else { r with status := StatusQualidade.DUPLICADO } ::
                keepLast (markDup rest)) = keepLast (r :: rest)
        rw [any_key_markDup, if_pos h, ih, keepLast, if_pos h]
      · rw [if_neg h]
        show (if (markDup rest).any (fun s => decide (rowKey s = rowKey r)) = true
              then keepLast (markDup rest)
              else r :: keepLast (markDup rest)) = keepLast (r :: rest)
        rw [any_key_markDup, if_neg h, ih, keepLast, if_neg h]

lemma keepLast_of_no_dup (l : List Row)
    (h : (dupMask l).count true = 0) : keepLast l = l := by
  induction l with
  | nil => rfl
  | cons r rest ih =>
      rw [dupMask, List.count_cons] at h
      have h1 : (dupMask rest).count true = 0 := by omega
      have h2 : rest.any (fun s => decide (rowKey s = rowKey r)) = false := by
        by_contra hb
        rw [Bool.not_eq_false] at hb
        simp [hb] at h
      rw [keepLast, h2]
      simp [ih h1]

lemma consolidarRows_eq_keepLast (l : List Row) :
    consolidarRows l = keepLast l := by
  unfold consolidarRows
  by_cases h : 0 < (dupMask l).count true
  · simp [h, keepLast_markDup]
  · have h0 : (dupMask l).count true = 0 := by omega
    simp [h, keepLast_of_no_dup l h0]

lemma keepLast_sublist (l : List Row) : (keepLast l).Sublist l := by
  induction l with
  | nil => exact List.Sublist.refl []
  | cons r rest ih =>
      by_cases h : rest.any (fun s => decide (rowKey s = rowKey r)) = true
      · rw [keepLast, if_pos h]
        exact ih.cons r
      · rw [keepLast, if_neg h]
        exact ih.cons₂ r

lemma keepLast_filter (l : List Row) (k : Option String × Int × Int) :
    (keepLast l).filter (fun r => decide (rowKey r = k)) =
      ((l.filter (fun r => decide (rowKey r = k))).getLast?).toList := by
  induction l with
  | nil => rfl
  | cons r rest ih =>
      by_cases h : rest.any (fun s => decide (rowKey s = rowKey r)) = true
      · rw [keepLast, if_pos h]
        rw [ih]
        by_cases hk : rowKey r = k
        · have hne : rest.filter (fun s => decide (rowKey s = k)) ≠ [] := by
            rw [List.any_eq_true] at h
            obtain ⟨s, hs, hsk⟩ := h
            rw [decide_eq_true_eq] at hsk
            have : s ∈ rest.filter (fun x => decide (rowKey x = k)) :=
              List.mem_filter.mpr ⟨hs, by rw [decide_eq_true_eq, hsk, hk]⟩
            intro hnil
            rw [hnil] at this
            exact absurd this (List.not_mem_nil s)
          rw [List.filter_cons_of_pos (by simpa using hk)]
          cases hxs : rest.filter (fun s => decide (rowKey s = k)) with
          | nil => exact absurd hxs hne
          | cons y ys => rw [List.getLast?_cons_cons]
        · rw [List.filter_cons_of_neg (by simpa using hk)]
      · rw [keepLast, if_neg h]
        by_cases hk : rowKey r = k
        · have hnil : rest.filter (fun s => decide (rowKey s = k)) = [] := by
            rw [List.filter_eq_nil_iff]
            intro s hs
            rw [Bool.not_eq_true, decide_eq_false_iff_not]
            intro hsk
            rw [Bool.not_eq_true, List.any_eq_false] at h
            exact absurd (by rw [decide_eq_true_eq]; rw [hsk, hk]) (h s hs)
          rw [List.filter_cons_of_pos (by simpa using hk),
              List.filter_cons_of_pos (by simpa using hk)]
          rw [ih, hnil]
          rfl
        · rw [List.filter_cons_of_neg (by simpa using hk),
              List.filter_cons_of_neg (by simpa using hk)]
          exact ih

/-- C3. For matching-length inputs (with an identifier column somewhere),
consolidation succeeds and its output, restricted to any key, is exactly
the last-occurring row of the concatenated input with that key; hence
exactly one row survives per occurring key and none for a key that never
occurs. -/
theorem C3_consolidation_keep_last (dfs : List Table) (anos tris : List Int)
    (h1 : dfs.length = anos.length) (h2 : dfs.length = tris.length)
    (hc : dfs.any (fun t => t.hasCNPJ) = true) :
    ∃ t : Table, consolidar_trimestres dfs anos tris = some t ∧
      (∀ k : Option String × Int × Int,
        t.rows.filter (fun r => decide (rowKey r = k)) =
          (((concatAll dfs anos tris).filter
              (fun r => decide (rowKey r = k))).getLast?).toList) ∧
      (∀ k : Option String × Int × Int,
        k ∈ (concatAll dfs anos tris).map rowKey ↔
          (t.rows.filter (fun r => decide (rowKey r = k))).length = 1) := by
  have hcons : consolidar_trimestres dfs anos tris =
      some (consolidatedTable dfs anos tris) := by
    unfold consolidar_trimestres
    rw [if_neg (by rintro (hv | hv); exacts [hv h1, hv h2]),
        if_neg (by simp [hc])]
  refine ⟨consolidatedTable dfs anos tris, hcons, ?_, ?_⟩
  · intro k
    show (consolidarRows (concatAll dfs anos tris)).filter _ = _
    rw [consolidarRows_eq_keepLast, keepLast_filter]
  · intro k
    have hfil : (consolidatedTable dfs anos tris).rows.filter
        (fun r => decide (rowKey r = k)) =
        (((concatAll dfs anos tris).filter
            (fun r => decide (rowKey r = k))).getLast?).toList := by
      show (consolidarRows (concatAll dfs anos tris)).filter _ = _
      rw [consolidarRows_eq_keepLast, keepLast_filter]
    rw [hfil]
    constructor
    · intro hk
      rw [List.mem_map] at hk
      obtain ⟨r, hr, hrk⟩ := hk
      have : r ∈ (concatAll dfs anos tris).filter
          (fun s => decide (rowKey s = k)) :=
        List.mem_filter.mpr ⟨hr, by simpa using hrk⟩
      cases hfl : (concatAll dfs anos tris).filter
          (fun s => decide (rowKey s = k)) with
      | nil =>
          rw [hfl] at this
          exact absurd this (List.not_mem_nil r)
      | cons y ys =>
          have : ((y :: ys : List Row).getLast?).toList.length = 1 := by
            rw [List.getLast?_eq_getLast _ (by simp)]
            rfl
          simpa [hfl.symm] using this
    · intro hlen
      cases hfl : (concatAll dfs anos tris).filter
          (fun s => decide (rowKey s = k)) with
      | nil => rw [hfl] at hlen; simp at hlen
      | cons y ys =>
          have hy : y ∈ (concatAll dfs anos tris).filter
              (fun s => decide (rowKey s = k)) := by
            rw [hfl]; exact List.mem_cons_self y ys
          have hmem := List.mem_filter.mp hy
          rw [List.mem_map]
          exact ⟨y, hmem.1, by simpa using hmem.2⟩

/-- Witness for C3: two rows with the same key in one source frame; the
conclusion instantiated at that concrete input. -/
theorem C3_consolidation_keep_last_witness :
    ([{ rows := [{ cnpj := some "A", ano := 2024, trimestre := 1,
                   valor := some 10 },
                 { cnpj := some "A", ano := 2024, trimestre := 1,
                   valor := some 20 }] }] : List Table).length =
      ([2024] : List Int).length ∧
    (∃ t : Table,
      consolidar_trimestres
          [{ rows := [{ cnpj := some "A", ano := 2024, trimestre := 1,
                        valor := some 10 },
                      { cnpj := some "A", ano := 2024, trimestre := 1,
                        valor := some 20 }] }] [2024] [1] = some t ∧
      (∀ k : Option String × Int × Int,
        t.rows.filter (fun r => decide (rowKey r = k)) =
          (((concatAll
              [{ rows := [{ cnpj := some "A", ano := 2024, trimestre := 1,
                            valor := some 10 },
                          { cnpj := some "A", ano := 2024, trimestre := 1,
                            valor := some 20 }] }] [2024] [1]).filter
              (fun r => decide (rowKey r = k))).getLast?).toList) ∧
      (∀ k : Option String × Int × Int,
        k ∈ (concatAll
            [{ rows := [{ cnpj := some "A", ano := 2024, trimestre := 1,
                          valor := some 10 },
                        { cnpj := some "A", ano := 2024, trimestre := 1,
                          valor := some 20 }] }] [2024] [1]).map rowKey ↔
          (t.rows.filter (fun r => decide (rowKey r = k))).length = 1)) :=
  ⟨rfl, C3_consolidation_keep_last _ _ _ rfl rfl (by decide)⟩

/-- C4. Enrichment never changes the number of expense rows, whatever the
registry contents; against an empty registry every row keeps its place
and every `OK` row is flagged `SEM_CADASTRO`. -/
theorem C4_enrichment_row_count (reg : RegTable) (df : Table) :
    (enriquecer_com_cadastro (some reg) df).rows.length = df.rows.length ∧
    (reg.rows = [] →
      (enriquecer_com_cadastro (some reg) df).rows.map Row.status =
        df.rows.map (fun r =>
          if r.status = StatusQualidade.OK
          then StatusQualidade.SEM_CADASTRO else r.status)) := by
  constructor
  · simp [enriquecer_com_cadastro]
  · intro hreg
    simp only [enriquecer_com_cadastro, hreg, keepFirstReg, List.map_map]
    apply List.map_congr_left
    intro r hr
    show (enrichRow reg [] r).status = _
    cases hc : r.cnpj with
    | none => simp [enrichRow, hc]
    | some c => simp [enrichRow, hc]

/-- Witness for C4: a one-row expense frame against the empty registry
keeps its single row, which turns `SEM_CADASTRO`. -/
theorem C4_enrichment_row_count_witness :
    (enriquecer_com_cadastro (some { rows := [] })
        { rows := [{ cnpj := some "A", valor := some 3 }] }).rows.length =
      ({ rows := [{ cnpj := some "A", valor := some 3 }] } : Table).rows.length ∧
    (enriquecer_com_cadastro (some { rows := [] })
        { rows := [{ cnpj := some "A", valor := some 3 }] }).rows.map Row.status =
      ({ rows := [{ cnpj := some "A", valor := some 3 }] } : Table).rows.map
        (fun r => if r.status = StatusQualidade.OK
                  then StatusQualidade.SEM_CADASTRO else r.status) :=
  ⟨(C4_enrichment_row_count { rows := [] } _).1,
   (C4_enrichment_row_count { rows := [] } _).2 rfl⟩

/-! ## C6: marking of discarded duplicates -/

/-- First row of the C6 input: key (A, 2024, 1), already flagged
`CNPJ_INVALIDO` by validation. -/
def c6row1 : Row :=
  { cnpj := some "A", ano := 2024, trimestre := 1,
    status := StatusQualidade.CNPJ_INVALIDO }

/-- Second row of the C6 input: same key, still `OK`; being last, it is
the retained one. -/
def c6row2 : Row := { cnpj := some "A", ano := 2024, trimestre := 1 }

/-- Counterexample to C6 as stated: the earlier, non-retained row carries
a non-OK flag (`CNPJ_INVALIDO`), yet the marking pass overwrites it with
`DUPLICADO` — the assignment carries no OK-guard. -/
theorem C6_duplicate_marking_counterexample :
    rowKey c6row1 = rowKey c6row2 ∧
    c6row1.status = StatusQualidade.CNPJ_INVALIDO ∧
    (markDup [c6row1, c6row2]).map Row.status =
      [StatusQualidade.DUPLICADO, StatusQualidade.OK] := by
  decide

/-- C6 (amended).  During consolidation every non-retained row — one with
a later same-key occurrence — is marked `DUPLICADO` before removal
unconditionally, whatever its current flag; retained rows are left
untouched. -/
theorem C6_duplicate_marking_unconditional (l : List Row) (d : Row) (i : Nat)
    (hi : i < l.length) :
    (markDup l).getD i d =
      (if (l.drop (i + 1)).any
            (fun s => decide (rowKey s = rowKey (l.getD i d))) = true
       then { l.getD i d with status := StatusQualidade.DUPLICADO }
       else l.getD i d) := by
  induction l generalizing i with
  | nil => simp at hi
  | cons r rest ih =>
      cases i with
      | zero =>
          simp only [markDup, List.getD_cons_zero, List.drop_succ_cons,
            List.drop_zero]
      | succ j =>
          have hj : j < rest.length := by simpa using hi
          simp only [markDup, List.getD_cons_succ, List.drop_succ_cons]
          exact ih j hj

/-- Witness for C6 (amended): the first C6 row is non-retained and gets
`DUPLICADO` over its `CNPJ_INVALIDO` flag. -/
theorem C6_duplicate_marking_unconditional_witness :
    0 < ([c6row1, c6row2] : List Row).length ∧
    (markDup [c6row1, c6row2]).getD 0 c6row1 =
      { c6row1 with status := StatusQualidade.DUPLICADO } := by
  refine ⟨by decide, ?_⟩
  rw [C6_duplicate_marking_unconditional [c6row1, c6row2] c6row1 0 (by decide)]
  rw [if_pos (by decide)]
  rfl

/-! ## C7: idempotence of consolidation -/

lemma keepLast_keys_nodup (l : List Row) : ((keepLast l).map rowKey).Nodup := by
  induction l with
  | nil => simp [keepLast]
  | cons r rest ih =>
      by_cases h : rest.any (fun s => decide (rowKey s = rowKey r)) = true
      · rw [keepLast, if_pos h]
        exact ih
      · rw [keepLast, if_neg h, List.map_cons, List.nodup_cons]
        refine ⟨?_, ih⟩
        intro hmem
        rw [List.mem_map] at hmem
        obtain ⟨s, hs, hsk⟩ := hmem
        have hsrest := (keepLast_sublist rest).subset hs
        rw [Bool.not_eq_true, List.any_eq_false] at h
        exact h s hsrest (by simp [hsk])

lemma keepLast_append_absorb (xs ys : List Row)
    (h : ∀ r ∈ xs, ∃ s ∈ ys, rowKey s = rowKey r) :
    keepLast (xs ++ ys) = keepLast ys := by
  induction xs with
  | nil => rfl
  | cons r xs ih =>
      have hcond : (xs ++ ys).any (fun s => decide (rowKey s = rowKey r)) = true := by
        obtain ⟨s, hs, hsk⟩ := h r (List.mem_cons_self r xs)
        rw [List.any_eq_true]
        exact ⟨s, List.mem_append_right xs hs, by simp [hsk]⟩
      rw [List.cons_append, keepLast, if_pos hcond]
      exact ih (fun q hq => h q (List.mem_cons_of_mem _ hq))

lemma keepLast_of_nodup_keys (l : List Row) (h : (l.map rowKey).Nodup) :
    keepLast l = l := by
  induction l with
  | nil => rfl
  | cons r rest ih =>
      rw [List.map_cons, List.nodup_cons] at h
      have hcond : rest.any (fun s => decide (rowKey s = rowKey r)) = false := by
        rw [List.any_eq_false]
        intro s hs hds
        rw [decide_eq_true_eq] at hds
        exact h.1 (List.mem_map.mpr ⟨s, hs, hds⟩)
      rw [keepLast, if_neg (by simp [hcond]), ih h.2]

lemma materialize_mem (t : Table) (a b : Int) (r : Row)
    (hr : r ∈ materialize t a b) :
    (t.hasRazao = false → r.razao_social = none) ∧
    (t.hasValor = false → r.valor = none) ∧
    (t.hasUF = false → r.uf = none) ∧
    (t.hasRazaoCad = false → r.razao_social_cadastro = none) ∧
    (t.hasRegistro = false → r.registro_ans = none) ∧
    (t.hasModalidade = false → r.modalidade = none) := by
  rw [materialize, List.mem_map] at hr
  obtain ⟨s, hs, rfl⟩ := hr
  refine ⟨?_, ?_, ?_, ?_, ?_, ?_⟩ <;> intro h <;> simp [h]

lemma mem_concatAll (dfs : List Table) (anos tris : List Int) (r : Row)
    (hr : r ∈ concatAll dfs anos tris) :
    ∃ p ∈ dfs.zip (anos.zip tris), r ∈ materialize p.1 p.2.1 p.2.2 := by
  rw [concatAll, List.mem_flatten] at hr
  obtain ⟨l, hl, hrl⟩ := hr
  rw [List.mem_map] at hl
  obtain ⟨p, hp, rfl⟩ := hl
  exact ⟨p, hp, hrl⟩

lemma consolidated_null_columns (dfs : List Table) (anos tris : List Int)
    (r : Row) (hr : r ∈ consolidarRows (concatAll dfs anos tris)) :
    ((dfs.any fun t => t.hasRazao) = false → r.razao_social = none) ∧
    ((dfs.any fun t => t.hasValor) = false → r.valor = none) ∧
    ((dfs.any fun t => t.hasUF) = false → r.uf = none) ∧
    ((dfs.any fun t => t.hasRazaoCad) = false → r.razao_social_cadastro = none) ∧
    ((dfs.any fun t => t.hasRegistro) = false → r.registro_ans = none) ∧
    ((dfs.any fun t => t.hasModalidade) = false → r.modalidade = none) := by
  rw [consolidarRows_eq_keepLast] at hr
  have hr2 := (keepLast_sublist _).subset hr
  obtain ⟨p, hp, hrm⟩ := mem_concatAll dfs anos tris r hr2
  have hpd : p.1 ∈ dfs := (List.of_mem_zip hp).1
  have hm := materialize_mem p.1 p.2.1 p.2.2 r hrm
  have flag : ∀ f : Table → Bool, (dfs.any fun t => f t) = false →
      f p.1 = false := by
    intro f hAll
    rw [List.any_eq_false] at hAll
    have := hAll p.1 hpd
    simpa using this
  exact ⟨fun h => hm.1 (flag _ h), fun h => hm.2.1 (flag _ h),
    fun h => hm.2.2.1 (flag _ h), fun h => hm.2.2.2.1 (flag _ h),
    fun h => hm.2.2.2.2.1 (flag _ h), fun h => hm.2.2.2.2.2 (flag _ h)⟩

lemma materialize_id (t : Table) (a b : Int)
    (hA : t.hasCNPJ = true) (hB : t.hasAno = true) (hC : t.hasTri = true)
    (hinv : ∀ r ∈ t.rows,
      (t.hasRazao = false → r.razao_social = none) ∧
      (t.hasValor = false → r.valor = none) ∧
      (t.hasUF = false → r.uf = none) ∧
      (t.hasRazaoCad = false → r.razao_social_cadastro = none) ∧
      (t.hasRegistro = false → r.registro_ans = none) ∧
      (t.hasModalidade = false → r.modalidade = none)) :
    materialize t a b = t.rows := by
  rw [materialize]
  conv_rhs => rw [← List.map_id t.rows]
  apply List.map_congr_left
  intro r hr
  obtain ⟨i1, i2, i3, i4, i5, i6⟩ := hinv r hr
  have opt : ∀ {α : Type} (c : Bool) (v : Option α),
      (c = false → v = none) → (if c then v else none) = v := by
    intro α c v h
    cases c
    · rw [if_neg (by simp)]
      exact (h rfl).symm
    · rw [if_pos rfl]
  show ({ cnpj := if t.hasCNPJ then r.cnpj else none,
          razao_social := if t.hasRazao then r.razao_social else none,
          valor := if t.hasValor then r.valor else none,
          ano := if t.hasAno then r.ano else a,
          trimestre := if t.hasTri then r.trimestre else b,
          status := r.status,
          registro_ans := if t.hasRegistro then r.registro_ans else none,
          modalidade := if t.hasModalidade then r.modalidade else none,
          uf := if t.hasUF then r.uf else none,
          razao_social_cadastro :=
            if t.hasRazaoCad then r.razao_social_cadastro else none } : Row) = id r
  rw [if_pos hA, if_pos hB, if_pos hC, opt _ _ i1, opt _ _ i2, opt _ _ i3,
      opt _ _ i4, opt _ _ i5, opt _ _ i6]
  rfl

/-- C7. Consolidation is idempotent on its own output: feeding the
consolidated table back in together with itself (any year/quarter
metadata — the columns are already present, so injection is a no-op)
consolidates successfully to exactly the same rows. -/
theorem C7_consolidation_idempotent (dfs : List Table) (anos tris : List Int)
    (t : Table) (h : consolidar_trimestres dfs anos tris = some t)
    (a b : Int) :
    ∃ t2 : Table, consolidar_trimestres [t, t] [a, a] [b, b] = some t2 ∧
      t2.rows = t.rows := by
  unfold consolidar_trimestres at h
  by_cases h1 : dfs.length ≠ anos.length ∨ dfs.length ≠ tris.length
  · rw [if_pos h1] at h
    exact absurd h (by simp)
  rw [if_neg h1] at h
  by_cases h2 : (dfs.any fun t => t.hasCNPJ) = false
  · rw [if_pos h2] at h
    exact absurd h (by simp)
  rw [if_neg h2] at h
  have ht : t = consolidatedTable dfs anos tris := (Option.some.inj h).symm
  have htC : t.hasCNPJ = true := by rw [ht]; rfl
  have htA : t.hasAno = true := by rw [ht]; rfl
  have htT : t.hasTri = true := by rw [ht]; rfl
  have hrows : t.rows = consolidarRows (concatAll dfs anos tris) := by
    rw [ht]; rfl
  have hinv : ∀ r ∈ t.rows,
      (t.hasRazao = false → r.razao_social = none) ∧
      (t.hasValor = false → r.valor = none) ∧
      (t.hasUF = false → r.uf = none) ∧
      (t.hasRazaoCad = false → r.razao_social_cadastro = none) ∧
      (t.hasRegistro = false → r.registro_ans = none) ∧
      (t.hasModalidade = false → r.modalidade = none) := by
    intro r hr
    rw [hrows] at hr
    have := consolidated_null_columns dfs anos tris r hr
    rw [ht]
    exact this
  have hmat : materialize t a b = t.rows := materialize_id t a b htC htA htT hinv
  have hnodup : (t.rows.map rowKey).Nodup := by
    rw [hrows, consolidarRows_eq_keepLast]
    exact keepLast_keys_nodup _
  refine ⟨consolidatedTable [t, t] [a, a] [b, b], ?_, ?_⟩
  · unfold consolidar_trimestres
    rw [if_neg (by simp), if_neg (by simp [htC])]
  · show consolidarRows (concatAll [t, t] [a, a] [b, b]) = t.rows
    have hcat : concatAll [t, t] [a, a] [b, b] =
        materialize t a b ++ materialize t a b := by
      simp [concatAll]
    rw [hcat, hmat, consolidarRows_eq_keepLast,
        keepLast_append_absorb _ _ (fun r hr => ⟨r, hr, rfl⟩),
        keepLast_of_nodup_keys _ hnodup]

/-- Witness for C7: a two-row frame with a duplicate key consolidates to
one row, and reconsolidating that output with itself reproduces it. -/
theorem C7_consolidation_idempotent_witness :
    consolidar_trimestres
        [{ rows := [{ cnpj := some "B", ano := 2023, trimestre := 2,
                      valor := some 7 },
                    { cnpj := some "B", ano := 2023, trimestre := 2,
                      valor := some 9 }] }] [2023] [2] =
      some (consolidatedTable
        [{ rows := [{ cnpj := some "B", ano := 2023, trimestre := 2,
                      valor := some 7 },
                    { cnpj := some "B", ano := 2023, trimestre := 2,
                      valor := some 9 }] }] [2023] [2]) ∧
    (∃ t2 : Table,
      consolidar_trimestres
          [consolidatedTable
            [{ rows := [{ cnpj := some "B", ano := 2023, trimestre := 2,
                          valor := some 7 },
                        { cnpj := some "B", ano := 2023, trimestre := 2,
                          valor := some 9 }] }] [2023] [2],
           consolidatedTable
            [{ rows := [{ cnpj := some "B", ano := 2023, trimestre := 2,
                          valor := some 7 },
                        { cnpj := some "B", ano := 2023, trimestre := 2,
                          valor := some 9 }] }] [2023] [2]]
          [2023, 2023] [2, 2] = some t2 ∧
      t2.rows = (consolidatedTable
        [{ rows := [{ cnpj := some "B", ano := 2023, trimestre := 2,
                      valor := some 7 },
                    { cnpj := some "B", ano := 2023, trimestre := 2,
                      valor := some 9 }] }] [2023] [2]).rows) := by
  have hsome : consolidar_trimestres
      [{ rows := [{ cnpj := some "B", ano := 2023, trimestre := 2,
                    valor := some 7 },
                  { cnpj := some "B", ano := 2023, trimestre := 2,
                    valor := some 9 }] }] [2023] [2] =
      some (consolidatedTable
        [{ rows := [{ cnpj := some "B", ano := 2023, trimestre := 2,
                      valor := some 7 },
                    { cnpj := some "B", ano := 2023, trimestre := 2,
                      valor := some 9 }] }] [2023] [2]) := by
    unfold consolidar_trimestres
    rw [if_neg (by simp), if_neg (by simp)]
  exact ⟨hsome, C7_consolidation_idempotent _ _ _ _ hsome 2023 2⟩

/-! ## Aggregator: `DataConsolidator.calcular_agregacoes` -/

/-- The effective `RAZAO_SOCIAL` cell after the column-guarantee block:
when the column is absent it is copied wholesale from
`RAZAO_SOCIAL_CADASTRO` when that column exists, else from `CNPJ`.  The
fallback is per-column, not per-row: a NaN cell in a present column stays
NaN. -/
def effRazao (df : Table) (r : Row) : Option String :=
  if df.hasRazao then r.razao_social
  else if df.hasRazaoCad then r.razao_social_cadastro
  else r.cnpj

/-- The effective `UF` cell: the column is filled per-row with the N/A
sentinel (`fillna`), or created filled with it when absent. -/
def effUF (df : Table) (r : Row) : String :=
  if df.hasUF then r.uf.getD "N/A" else "N/A"

/-- One row after the in-place column mutations of
`calcular_agregacoes`. -/
def mutRow (df : Table) (r : Row) : Row :=
  { r with razao_social := effRazao df r, uf := some (effUF df r) }

/-- The argument frame as it stands after `calcular_agregacoes` returns:
both group-key columns exist and the mutations above are applied in
place. -/
def aggMutate (df : Table) : Table :=
  { df with
    rows := df.rows.map (mutRow df),
    hasRazao := true,
    hasUF := true }

/-- The groupby key `(RAZAO_SOCIAL, UF)`; `none` when a key cell is NaN —
pandas `groupby` silently drops such rows. -/
def aggKey (r : Row) : Option (String × String) :=
  match r.razao_social, r.uf with
  | some nm, some u => some (nm, u)
  | _, _ => none

/-- The distinct defined group keys of a frame, in first-occurrence
order.  (pandas emits groups key-sorted, but the result is re-sorted by
total immediately afterwards, so only the set matters.) -/
def groupKeysAux (seen : List (String × String)) :
    List Row → List (String × String)
  | [] => []
  | r :: rest =>
      match aggKey r with
      | none => groupKeysAux seen rest
      | some k =>
          if k ∈ seen then groupKeysAux seen rest
          else k :: groupKeysAux (k :: seen) rest

/-- The distinct defined group keys of a frame. -/
def groupKeys (l : List Row) : List (String × String) := groupKeysAux [] l

/-- The non-null `VALOR` cells of the rows in one group (aggregation
functions skip NaN). -/
def groupVals (l : List Row) (k : String × String) : List ℚ :=
  (l.filter (fun r => decide (aggKey r = some k))).filterMap (fun r => r.valor)

/-- One output row of the aggregation, `DespesaAgregada`-shaped. -/
structure AggRow where
  razao_social : String
  uf : String
  total : ℚ
  media : Option ℚ
  desvio_padrao : ℝ
  quantidade_registros : Nat

/-- `std` (sample, ddof=1) composed with the `fillna(0)` that follows it:
fewer than two values give NaN which the fill turns into 0; otherwise the
square root of the sample variance. -/
noncomputable def desvioPadraoFilled (vals : List ℚ) : ℝ :=
  if vals.length ≤ 1 then 0
  else Real.sqrt
    (((vals.map (fun v =>
        ((v : ℝ) - (vals.sum : ℝ) / (vals.length : ℝ)) ^ 2)).sum) /
      ((vals.length : ℝ) - 1))

/-- The aggregate record of one group: sum, mean (NaN when the group has
no non-null amount), filled standard deviation and non-null count. -/
noncomputable def mkAggRow (l : List Row) (k : String × String) : AggRow :=
  let vs := groupVals l k
  { razao_social := k.1,
    uf := k.2,
    total := vs.sum,
    media := if vs.length = 0 then none
             else some (vs.sum / (vs.length : ℚ)),
    desvio_padrao := desvioPadraoFilled vs,
    quantidade_registros := vs.length }

/-- Insertion step of the `sort_values("total", ascending=False)`
ordering (tie order among equal totals is unspecified in pandas; any
total-descending arrangement is faithful). -/
def insertByTotal (a : AggRow) : List AggRow → List AggRow
  | [] => [a]
  | b :: rest =>
      if b.total ≤ a.total then a :: b :: rest else b :: insertByTotal a rest

/-- Sort the aggregate rows by total, descending. -/
def sortByTotalDesc : List AggRow → List AggRow
  | [] => []
  | a :: rest => insertByTotal a (sortByTotalDesc rest)

/-- The grouped/aggregated/sorted output frame. -/
noncomputable def aggregateRows (l : List Row) : List AggRow :=
  sortByTotalDesc ((groupKeys l).map (mkAggRow l))

/-- `DataConsolidator.calcular_agregacoes`.  The first component is the
argument frame itself after the in-place column mutations (the Python
function assigns into `df` without copying); the second is the new
aggregate frame.  A frame with none of `RAZAO_SOCIAL`,
`RAZAO_SOCIAL_CADASTRO`, `CNPJ` would raise `KeyError` on the fallback
(`none` here). -/
noncomputable def calcular_agregacoes (df : Table) :
    Option (Table × List AggRow) :=
  if df.hasRazao = false ∧ df.hasRazaoCad = false ∧ df.hasCNPJ = false then
    none
  else some (aggMutate df, aggregateRows (aggMutate df).rows)

/-- Steps 2-5 of `DataConsolidator.executar_pipeline_completo` on
already-processed per-quarter frames (per-file reading, normalization and
validation are file I/O driven and happen before; the two `exportar_csv`
calls serialize the two returned frames).  The consolidated CSV is
written from the first component — the very frame the aggregator mutated
in place. -/
noncomputable def executar_pipeline_completo (dfs : List Table)
    (anos tris : List Int) (ops : Option RegTable) :
    Option (Table × List AggRow) :=
  match consolidar_trimestres dfs anos tris with
  | none => none
  | some c => calcular_agregacoes (enriquecer_com_cadastro ops c)

/-! Lemmas about group keys, grouping sums and the total-descending
sort. -/

lemma mem_groupKeysAux (l : List Row) :
    ∀ (seen : List (String × String)) (k : String × String),
      k ∈ groupKeysAux seen l ↔
        (∃ r ∈ l, aggKey r = some k) ∧ k ∉ seen := by
  induction l with
  | nil =>
      intro seen k
      simp [groupKeysAux]
  | cons r rest ih =>
      intro seen k
      cases ha : aggKey r with
      | none =>
          have hg : groupKeysAux seen (r :: rest) = groupKeysAux seen rest := by
            simp only [groupKeysAux, ha]
          rw [hg, ih seen k]
          constructor
          · rintro ⟨⟨s, hs, hsk⟩, hns⟩
            exact ⟨⟨s, List.mem_cons_of_mem _ hs, hsk⟩, hns⟩
          · rintro ⟨⟨s, hs, hsk⟩, hns⟩
            rcases List.mem_cons.mp hs with rfl | hs2
            · rw [ha] at hsk
              exact absurd hsk (by simp)
            · exact ⟨⟨s, hs2, hsk⟩, hns⟩
      | some k0 =>
          by_cases hseen : k0 ∈ seen
          · have hg : groupKeysAux seen (r :: rest) = groupKeysAux seen rest := by
              simp only [groupKeysAux, ha]
              rw [if_pos hseen]
            rw [hg, ih seen k]
            constructor
            · rintro ⟨⟨s, hs, hsk⟩, hns⟩
              exact ⟨⟨s, List.mem_cons_of_mem _ hs, hsk⟩, hns⟩
            · rintro ⟨⟨s, hs, hsk⟩, hns⟩
              rcases List.mem_cons.mp hs with rfl | hs2
              · rw [ha] at hsk
                injection hsk with he
                exact absurd (he ▸ hseen) hns
              · exact ⟨⟨s, hs2, hsk⟩, hns⟩
          · have hg : groupKeysAux seen (r :: rest) =
                k0 :: groupKeysAux (k0 :: seen) rest := by
              simp only [groupKeysAux, ha]
              rw [if_neg hseen]
            rw [hg]
            constructor
            · intro hk
              rcases List.mem_cons.mp hk with rfl | hk2
              · exact ⟨⟨r, List.mem_cons_self _ _, ha⟩, hseen⟩
              · obtain ⟨⟨s, hs, hsk⟩, hns⟩ := (ih (k0 :: seen) k).mp hk2
                exact ⟨⟨s, List.mem_cons_of_mem _ hs, hsk⟩,
                  fun hk3 => hns (List.mem_cons_of_mem _ hk3)⟩
            · rintro ⟨⟨s, hs, hsk⟩, hns⟩
              by_cases hkk : k = k0
              · subst hkk
                exact List.mem_cons_self _ _
              · rcases List.mem_cons.mp hs with rfl | hs2
                · rw [ha] at hsk
                  injection hsk with he
                  exact absurd he.symm hkk
                · apply List.mem_cons_of_mem
                  refine (ih (k0 :: seen) k).mpr ⟨⟨s, hs2, hsk⟩, ?_⟩
                  intro hk3
                  rcases List.mem_cons.mp hk3 with h4 | h4
                  exacts [hkk h4, hns h4]

lemma groupKeysAux_nodup (l : List Row) :
    ∀ seen : List (String × String), (groupKeysAux seen l).Nodup := by
  induction l with
  | nil =>
      intro seen
      simp [groupKeysAux]
  | cons r rest ih =>
      intro seen
      cases ha : aggKey r with
      | none =>
          simp only [groupKeysAux, ha]
          exact ih seen
      | some k0 =>
          simp only [groupKeysAux, ha]
          by_cases hseen : k0 ∈ seen
          · rw [if_pos hseen]
            exact ih seen
          · rw [if_neg hseen]
            rw [List.nodup_cons]
            refine ⟨?_, ih _⟩
            intro hmem
            exact ((mem_groupKeysAux rest (k0 :: seen) k0).mp hmem).2
              (List.mem_cons_self _ _)

lemma groupKeys_nodup (l : List Row) : (groupKeys l).Nodup :=
  groupKeysAux_nodup l []

lemma mem_groupKeys (l : List Row) (k : String × String) :
    k ∈ groupKeys l ↔ ∃ r ∈ l, aggKey r = some k := by
  rw [groupKeys, mem_groupKeysAux]
  simp

lemma aggKey_mutRow (df : Table) (r : Row) :
    aggKey (mutRow df r) = (effRazao df r).map (fun nm => (nm, effUF df r)) := by
  cases h : effRazao df r <;> simp [aggKey, mutRow, h]

/-- Concatenation-side value sum of a list of rows (NaN amounts skipped,
as the aggregation functions do). -/
def sumVals (l : List Row) : ℚ := (l.filterMap (fun r => r.valor)).sum

lemma sumVals_cons (r : Row) (l : List Row) :
    sumVals (r :: l) = (r.valor).getD 0 + sumVals l := by
  cases hv : r.valor <;> simp [sumVals, List.filterMap_cons, hv]

lemma groupVals_cons_sum (r : Row) (l : List Row) (k : String × String) :
    (groupVals (r :: l) k).sum =
      (if aggKey r = some k then (r.valor).getD 0 else 0) +
        (groupVals l k).sum := by
  by_cases hk : aggKey r = some k
  · rw [groupVals, List.filter_cons_of_pos (by simpa using hk), if_pos hk]
    cases hv : r.valor <;> simp [List.filterMap_cons, hv, groupVals]
  · rw [groupVals, List.filter_cons_of_neg (by simpa using hk), if_neg hk,
      zero_add]
    rfl

lemma sum_indicator (k0 : String × String) (c : ℚ) :
    ∀ K : List (String × String), K.Nodup →
      (K.map (fun k => if k0 = k then c else 0)).sum =
        if k0 ∈ K then c else 0 := by
  intro K
  induction K with
  | nil => simp
  | cons k ks ih =>
      intro hK
      rw [List.nodup_cons] at hK
      rw [List.map_cons, List.sum_cons, ih hK.2]
      by_cases h : k0 = k
      · subst h
        rw [if_pos rfl, if_neg hK.1, if_pos (List.mem_cons_self _ _), add_zero]
      · rw [if_neg h]
        by_cases h2 : k0 ∈ ks
        · rw [if_pos h2, if_pos (List.mem_cons_of_mem _ h2), zero_add]
        · rw [if_neg h2, if_neg (by simp [h, h2]), zero_add]

lemma sum_groupVals_eq (K : List (String × String)) (hK : K.Nodup) :
    ∀ l : List Row,
      ((K.map (fun k => (groupVals l k).sum)).sum) =
        sumVals (l.filter (fun r =>
          match aggKey r with
          | some k => decide (k ∈ K)
          | none => false)) := by
  intro l
  induction l with
  | nil =>
      have h0 : ∀ k ∈ K, (groupVals ([] : List Row) k).sum = 0 := by
        intro k _
        rfl
      rw [List.map_congr_left h0]
      simp [sumVals]
  | cons r rest ih =>
      cases ha : aggKey r with
      | none =>
          have hmap : ∀ k ∈ K, (groupVals (r :: rest) k).sum =
              (groupVals rest k).sum := by
            intro k _
            rw [groupVals_cons_sum, ha]
            simp
          rw [List.map_congr_left hmap, ih,
            List.filter_cons_of_neg (by simp [ha])]
      | some k0 =>
          have hmap : ∀ k ∈ K, (groupVals (r :: rest) k).sum =
              (if k0 = k then (r.valor).getD 0 else 0) +
                (groupVals rest k).sum := by
            intro k _
            rw [groupVals_cons_sum, ha]
            by_cases h : k0 = k
            · rw [if_pos (by rw [h]), if_pos h]
            · rw [if_neg (by simp [h]), if_neg h]
          rw [List.map_congr_left hmap, List.sum_map_add,
            sum_indicator k0 _ K hK, ih]
          by_cases hmem : k0 ∈ K
          · rw [if_pos hmem,
              List.filter_cons_of_pos (by simp [ha, hmem]), sumVals_cons]
          · rw [if_neg hmem,
              List.filter_cons_of_neg (by simp [ha, hmem]), zero_add]

lemma insertByTotal_perm (a : AggRow) (l : List AggRow) :
    (insertByTotal a l).Perm (a :: l) := by
  induction l with
  | nil => exact List.Perm.refl _
  | cons b rest ih =>
      rw [insertByTotal]
      by_cases h : b.total ≤ a.total
      · rw [if_pos h]
      · rw [if_neg h]
        exact (ih.cons b).trans (List.Perm.swap a b rest)

lemma sortByTotalDesc_perm (l : List AggRow) :
    (sortByTotalDesc l).Perm l := by
  induction l with
  | nil => exact List.Perm.refl _
  | cons a rest ih =>
      rw [sortByTotalDesc]
      exact (insertByTotal_perm a (sortByTotalDesc rest)).trans (ih.cons a)

lemma mem_sortByTotalDesc (l : List AggRow) (g : AggRow) :
    g ∈ sortByTotalDesc l ↔ g ∈ l :=
  (sortByTotalDesc_perm l).mem_iff

lemma calcular_some (df : Table) (m : Table) (agg : List AggRow)
    (h : calcular_agregacoes df = some (m, agg)) :
    m = aggMutate df ∧ agg = aggregateRows (aggMutate df).rows := by
  unfold calcular_agregacoes at h
  by_cases hg : df.hasRazao = false ∧ df.hasRazaoCad = false ∧
      df.hasCNPJ = false
  · rw [if_pos hg] at h
    exact absurd h (by simp)
  · rw [if_neg hg] at h
    have h2 := Option.some.inj h
    exact ⟨(congrArg Prod.fst h2).symm, (congrArg Prod.snd h2).symm⟩

lemma sumVals_eq_map_getD (l : List Row) (hv : ∀ r ∈ l, r.valor ≠ none) :
    sumVals l = (l.map (fun r => (r.valor).getD 0)).sum := by
  induction l with
  | nil => rfl
  | cons r rest ih =>
      rw [sumVals_cons, List.map_cons, List.sum_cons,
        ih (fun s hs => hv s (List.mem_cons_of_mem _ hs))]

lemma filter_key_length_one (K : List (String × String))
    (a : String × String) (hK : K.Nodup) (ha : a ∈ K) :
    (K.filter (fun k => decide (k = a))).length = 1 := by
  induction K with
  | nil => simp at ha
  | cons k ks ih =>
      rw [List.nodup_cons] at hK
      by_cases h : k = a
      · subst h
        rw [List.filter_cons_of_pos (by simp)]
        have hnil : ks.filter (fun x => decide (x = k)) = [] := by
          rw [List.filter_eq_nil_iff]
          intro x hx hd
          rw [decide_eq_true_eq] at hd
          subst hd
          exact hK.1 hx
        rw [hnil]
        rfl
      · rw [List.filter_cons_of_neg (by simp [h])]
        rcases List.mem_cons.mp ha with h2 | h2
        · exact absurd h2.symm h
        · exact ih hK.2 h2

/-- C9. Every output group with exactly one contributing (non-null
amount) row has standard deviation exactly 0 — the NaN that `std` with
ddof 1 yields there is filled with 0, never surfaced. -/
theorem C9_single_row_stddev (df : Table) (m : Table) (agg : List AggRow)
    (h : calcular_agregacoes df = some (m, agg)) :
    ∀ g ∈ agg, g.quantidade_registros = 1 → g.desvio_padrao = 0 := by
  obtain ⟨-, hagg⟩ := calcular_some df m agg h
  subst hagg
  intro g hg h1
  rw [aggregateRows, mem_sortByTotalDesc, List.mem_map] at hg
  obtain ⟨k, hk, rfl⟩ := hg
  show desvioPadraoFilled (groupVals (aggMutate df).rows k) = 0
  have hlen : (groupVals (aggMutate df).rows k).length = 1 := h1
  rw [desvioPadraoFilled, if_pos (by omega)]

/-- Input for the C9 witness: a single OK row with amount 5. -/
def c9df : Table :=
  { rows := [{ cnpj := some "C", razao_social := some "Nome",
               valor := some 5 }] }

/-- Witness for C9: the single group of a one-row frame has count 1 and
standard deviation 0. -/
theorem C9_single_row_stddev_witness :
    calcular_agregacoes c9df =
      some (aggMutate c9df, aggregateRows (aggMutate c9df).rows) ∧
    (mkAggRow (aggMutate c9df).rows ("Nome", "N/A")).quantidade_registros = 1 ∧
    (mkAggRow (aggMutate c9df).rows ("Nome", "N/A")).desvio_padrao = 0 := by
  have hc : calcular_agregacoes c9df =
      some (aggMutate c9df, aggregateRows (aggMutate c9df).rows) := by
    unfold calcular_agregacoes
    rw [if_neg (by simp [c9df])]
  have he : aggregateRows (aggMutate c9df).rows =
      [mkAggRow (aggMutate c9df).rows ("Nome", "N/A")] := rfl
  have hmem : mkAggRow (aggMutate c9df).rows ("Nome", "N/A") ∈
      aggregateRows (aggMutate c9df).rows := by
    rw [he]
    exact List.mem_singleton_self _
  exact ⟨hc, rfl,
    C9_single_row_stddev c9df (aggMutate c9df) _ hc _ hmem rfl⟩

/-- C5 (amended). When no amount is missing and every row has a defined
effective entity name (a null name cell in a present name column would
be dropped by groupby), the group totals sum to the whole frame's amount
sum, exactly. -/
theorem C5_aggregation_total (df : Table) (m : Table) (agg : List AggRow)
    (h : calcular_agregacoes df = some (m, agg))
    (hv : ∀ r ∈ df.rows, r.valor ≠ none)
    (hn : ∀ r ∈ df.rows, effRazao df r ≠ none) :
    (agg.map (fun g => g.total)).sum =
      (df.rows.map (fun r => (r.valor).getD 0)).sum := by
  obtain ⟨-, hagg⟩ := calcular_some df m agg h
  subst hagg
  rw [aggregateRows,
    List.Perm.sum_eq ((sortByTotalDesc_perm _).map (fun g => g.total)),
    List.map_map]
  have hfun : ((fun g => g.total) ∘ mkAggRow (aggMutate df).rows) =
      fun k => (groupVals (aggMutate df).rows k).sum := rfl
  rw [hfun,
    sum_groupVals_eq (groupKeys (aggMutate df).rows) (groupKeys_nodup _)
      (aggMutate df).rows]
  have hall : (aggMutate df).rows.filter (fun r =>
      match aggKey r with
      | some k => decide (k ∈ groupKeys (aggMutate df).rows)
      | none => false) = (aggMutate df).rows := by
    rw [List.filter_eq_self]
    intro r hr
    have hr2 : r ∈ df.rows.map (mutRow df) := hr
    obtain ⟨r0, hr0, rfl⟩ := List.mem_map.mp hr2
    cases he : effRazao df r0 with
    | none => exact absurd he (hn r0 hr0)
    | some nm =>
        have hkey : aggKey (mutRow df r0) = some (nm, effUF df r0) := by
          rw [aggKey_mutRow, he]
          rfl
        rw [hkey]
        rw [decide_eq_true_eq]
        rw [mem_groupKeys]
        exact ⟨mutRow df r0, hr, hkey⟩
  rw [hall]
  have hmv : sumVals (aggMutate df).rows = sumVals df.rows := by
    show sumVals (df.rows.map (mutRow df)) = sumVals df.rows
    rw [sumVals, List.filterMap_map]
    rfl
  rw [hmv, sumVals_eq_map_getD df.rows hv]

/-- Input for the C5 witness. -/
def c5wdf : Table :=
  { rows := [{ cnpj := some "V", razao_social := some "NomeV",
               valor := some 8 }] }

/-- Witness for C5 (amended): on a one-row frame with a defined name and
amount, the group totals sum to that amount. -/
theorem C5_aggregation_total_witness :
    calcular_agregacoes c5wdf =
      some (aggMutate c5wdf, aggregateRows (aggMutate c5wdf).rows) ∧
    ((aggregateRows (aggMutate c5wdf).rows).map (fun g => g.total)).sum =
      (c5wdf.rows.map (fun r => (r.valor).getD 0)).sum := by
  have hc : calcular_agregacoes c5wdf =
      some (aggMutate c5wdf, aggregateRows (aggMutate c5wdf).rows) := by
    unfold calcular_agregacoes
    rw [if_neg (by simp [c5wdf])]
  refine ⟨hc, ?_⟩
  refine C5_aggregation_total c5wdf _ _ hc ?_ ?_
  · intro r hr
    simp only [c5wdf, List.mem_singleton] at hr
    subst hr
    simp
  · intro r hr
    simp only [c5wdf, List.mem_singleton] at hr
    subst hr
    simp [effRazao, c5wdf]

/-- Input refuting C5 as stated: one row with amount 100 but a null
entity name while the name column is present. -/
def c5df : Table :=
  { rows := [{ cnpj := some "K5", razao_social := none,
               valor := some 100 }] }

/-- Counterexample to C5 as stated: no amount is missing, yet the
aggregation output is empty (groupby dropped the null-name row), so the
group totals sum to 0 while the amounts sum to 100. -/
theorem C5_aggregation_total_counterexample :
    (∀ r ∈ c5df.rows, r.valor ≠ none) ∧
    calcular_agregacoes c5df = some (aggMutate c5df, []) ∧
    (([] : List AggRow).map (fun g => g.total)).sum = 0 ∧
    (c5df.rows.map (fun r => (r.valor).getD 0)).sum = 100 := by
  refine ⟨?_, ?_, rfl, ?_⟩
  · intro r hr
    simp only [c5df, List.mem_singleton] at hr
    subst hr
    simp
  · unfold calcular_agregacoes
    rw [if_neg (by simp [c5df])]
    rfl
  · norm_num [c5df]

/-- C8 (amended).  Grouping is well defined for every row whose effective
name cell is non-null: exactly one output group carries that row's
(name, region) key, and every output group's key comes from some row.
The identifier fallback for the name applies when the name column is
absent (per-column, not per-row), and a missing region — null cell or
absent column — is grouped under the N/A sentinel; a row whose name cell
is null while the column exists belongs to no group. -/
theorem C8_aggregation_grouping (df : Table) (m : Table) (agg : List AggRow)
    (h : calcular_agregacoes df = some (m, agg)) :
    (∀ r ∈ df.rows, ∀ nm : String, effRazao df r = some nm →
      (agg.filter (fun g =>
        decide (g.razao_social = nm ∧ g.uf = effUF df r))).length = 1) ∧
    (∀ g ∈ agg, ∃ r ∈ df.rows,
      effRazao df r = some g.razao_social ∧ effUF df r = g.uf) ∧
    (∀ r : Row, df.hasRazao = false → df.hasRazaoCad = false →
      effRazao df r = r.cnpj) ∧
    (∀ r : Row, df.hasUF = false ∨ r.uf = none → effUF df r = "N/A") := by
  obtain ⟨-, hagg⟩ := calcular_some df m agg h
  subst hagg
  refine ⟨?_, ?_, ?_, ?_⟩
  · intro r hr nm hnm
    rw [aggregateRows,
      ((sortByTotalDesc_perm _).filter _).length_eq,
      List.filter_map, List.length_map]
    have hpred : ∀ k ∈ groupKeys (aggMutate df).rows,
        ((fun g => decide (g.razao_social = nm ∧ g.uf = effUF df r)) ∘
          mkAggRow (aggMutate df).rows) k =
          decide (k = (nm, effUF df r)) := by
      intro k _
      show decide (k.1 = nm ∧ k.2 = effUF df r) = _
      rw [decide_eq_decide, Prod.ext_iff]
    rw [List.filter_congr hpred]
    have hkmem : (nm, effUF df r) ∈ groupKeys (aggMutate df).rows := by
      rw [mem_groupKeys]
      refine ⟨mutRow df r, ?_, ?_⟩
      · show mutRow df r ∈ df.rows.map (mutRow df)
        exact List.mem_map_of_mem _ hr
      · rw [aggKey_mutRow, hnm]
        rfl
    exact filter_key_length_one _ _ (groupKeys_nodup _) hkmem
  · intro g hg
    rw [aggregateRows, mem_sortByTotalDesc, List.mem_map] at hg
    obtain ⟨k, hk, rfl⟩ := hg
    rw [mem_groupKeys] at hk
    obtain ⟨rm, hrm, hkey⟩ := hk
    have hrm2 : rm ∈ df.rows.map (mutRow df) := hrm
    obtain ⟨r0, hr0, rfl⟩ := List.mem_map.mp hrm2
    rw [aggKey_mutRow] at hkey
    cases he : effRazao df r0 with
    | none =>
        rw [he] at hkey
        exact absurd hkey (by simp)
    | some nm =>
        rw [he] at hkey
        have hk2 : (nm, effUF df r0) = k := by
          simpa using hkey
        refine ⟨r0, hr0, ?_, ?_⟩
        · show effRazao df r0 =
            some (mkAggRow (aggMutate df).rows k).razao_social
          rw [he, ← hk2]
          rfl
        · show effUF df r0 = (mkAggRow (aggMutate df).rows k).uf
          rw [← hk2]
          rfl
  · intro r h1 h2
    rw [effRazao, if_neg (by simp [h1]), if_neg (by simp [h2])]
  · intro r hor
    rcases hor with h1 | h1
    · rw [effUF, if_neg (by simp [h1])]
    · rw [effUF, h1]
      by_cases h2 : df.hasUF = true
      · rw [if_pos h2]
        rfl
      · rw [if_neg h2]

/-- Input refuting C8 as stated: one row with a null entity name while
the name column is present. -/
def c8df : Table :=
  { rows := [{ cnpj := some "K", razao_social := none,
               valor := some 100 }] }

/-- Counterexample to C8 as stated: the name column exists, the row's
name cell is null, and groupby emits no group at all — the row is
dropped rather than grouped under its identifier. -/
theorem C8_aggregation_grouping_counterexample :
    c8df.hasRazao = true ∧ c8df.rows.length = 1 ∧
    calcular_agregacoes c8df = some (aggMutate c8df, []) := by
  refine ⟨rfl, rfl, ?_⟩
  unfold calcular_agregacoes
  rw [if_neg (by simp [c8df])]
  rfl

/-- Input for the C8 witness. -/
def c8wdf : Table :=
  { rows := [{ cnpj := some "W", razao_social := some "NomeW",
               valor := some 4 }] }

/-- Witness for C8 (amended): the one defined-name row of a concrete
frame yields exactly one group with its key. -/
theorem C8_aggregation_grouping_witness :
    calcular_agregacoes c8wdf =
      some (aggMutate c8wdf, aggregateRows (aggMutate c8wdf).rows) ∧
    ((aggregateRows (aggMutate c8wdf).rows).filter (fun g =>
      decide (g.razao_social = "NomeW" ∧ g.uf = effUF c8wdf
        { cnpj := some "W", razao_social := some "NomeW",
          valor := some 4 }))).length = 1 := by
  have hc : calcular_agregacoes c8wdf =
      some (aggMutate c8wdf, aggregateRows (aggMutate c8wdf).rows) := by
    unfold calcular_agregacoes
    rw [if_neg (by simp [c8wdf])]
  refine ⟨hc, ?_⟩
  exact (C8_aggregation_grouping c8wdf _ _ hc).1
    { cnpj := some "W", razao_social := some "NomeW", valor := some 4 }
    (by simp [c8wdf]) "NomeW" rfl

/-- C10.  `calcular_agregacoes` mutates its argument frame: the returned
frame (the same object the caller passed) gains a `RAZAO_SOCIAL` column
(copied from the registry name column or the identifier when absent) and
a filled `UF` column; and the pipeline exports exactly that mutated
consolidated frame, so the consolidated output contains these columns
with no null region cell. -/
theorem C10_aggregation_mutates_frame :
    (∀ (df m : Table) (agg : List AggRow),
      calcular_agregacoes df = some (m, agg) →
      m.hasRazao = true ∧ m.hasUF = true ∧
      m.rows = df.rows.map (fun r =>
        { r with razao_social := effRazao df r,
                 uf := some (effUF df r) })) ∧
    (∀ (dfs : List Table) (anos tris : List Int) (ops : Option RegTable)
      (out : Table × List AggRow),
      executar_pipeline_completo dfs anos tris ops = some out →
      out.1.hasRazao = true ∧ out.1.hasUF = true ∧
      ∀ r ∈ out.1.rows, r.uf ≠ none) := by
  constructor
  · intro df m agg h
    rw [(calcular_some df m agg h).1]
    exact ⟨rfl, rfl, rfl⟩
  · intro dfs anos tris ops out h
    unfold executar_pipeline_completo at h
    cases hcons : consolidar_trimestres dfs anos tris with
    | none =>
        rw [hcons] at h
        exact absurd h (by simp)
    | some c =>
        rw [hcons] at h
        have hm : out.1 = aggMutate (enriquecer_com_cadastro ops c) := by
          cases out with
          | mk m agg => exact (calcular_some _ m agg h).1
        rw [hm]
        refine ⟨rfl, rfl, ?_⟩
        intro r hr
        have hr2 : r ∈ (enriquecer_com_cadastro ops c).rows.map
            (mutRow (enriquecer_com_cadastro ops c)) := hr
        obtain ⟨r0, -, rfl⟩ := List.mem_map.mp hr2
        simp [mutRow]

/-- Input for the C10 witness. -/
def c10df : Table :=
  { rows := [{ cnpj := some "P", razao_social := some "NomeP",
               valor := some 2, ano := 2024, trimestre := 1 }] }

/-- Witness for C10: a concrete one-file pipeline run without a registry
exports a consolidated frame that has both added columns and no null
region. -/
theorem C10_aggregation_mutates_frame_witness :
    ∃ out : Table × List AggRow,
      executar_pipeline_completo [c10df] [2024] [1] none = some out ∧
      out.1.hasRazao = true ∧ out.1.hasUF = true ∧
      ∀ r ∈ out.1.rows, r.uf ≠ none := by
  have hcons : consolidar_trimestres [c10df] [2024] [1] =
      some (consolidatedTable [c10df] [2024] [1]) := by
    unfold consolidar_trimestres
    rw [if_neg (by simp), if_neg (by simp [c10df])]
  have hexe : executar_pipeline_completo [c10df] [2024] [1] none =
      some (aggMutate (consolidatedTable [c10df] [2024] [1]),
        aggregateRows
          (aggMutate (consolidatedTable [c10df] [2024] [1])).rows) := by
    unfold executar_pipeline_completo
    rw [hcons]
    show calcular_agregacoes (consolidatedTable [c10df] [2024] [1]) = _
    unfold calcular_agregacoes
    rw [if_neg (by simp [consolidatedTable, c10df])]
  exact ⟨_, hexe,
    C10_aggregation_mutates_frame.2 [c10df] [2024] [1] none _ hexe⟩

end ANS
